import Mathlib

set_option linter.unusedVariables false
set_option linter.unusedTactic false
set_option linter.unreachableTactic false
set_option linter.unnecessarySeqFocus false

/-!
Shallow embedding of `src/lib/vrl/compiler/src/expression/function_call.rs`:
the function-call resolution and type-checking core of the VRL expression
compiler.  Pure data is translated directly; the mutable `LocalEnv` scope is
passed and returned explicitly; Rust panics (`expect`, out-of-bounds indexing)
are modelled as `Option.none` wrapped around results.
-/

/-- Primitive value shapes of the `Kind` lattice (spec section 3).  The `Kind`
type itself lives in the `value` crate, outside the provided source; it is
modelled from the spec as a set of primitive shapes. -/
inductive Prim where
  | bytes | integer | float | boolean | timestamp | regex | null | array | object
  deriving DecidableEq, Repr

/-- Modelled from the spec: `Kind` is "a lattice value representing a set of
runtime value shapes", here a (possibly redundant) list of primitive shapes
with membership semantics. -/
structure Kind where
  prims : List Prim
  deriving DecidableEq, Repr

/-- Modelled from the spec: intersection test of two kinds (collaborator
operation `intersects`). -/
def Kind.intersects (a b : Kind) : Bool :=
  a.prims.any (fun p => b.prims.contains p)

/-- Modelled from the spec: superset test of two kinds (collaborator operation
`is_superset`). -/
def Kind.is_superset (a b : Kind) : Bool :=
  b.prims.all (fun p => a.prims.contains p)

/-- Modelled from the spec: `Kind::any()`, the kind containing every shape. -/
def Kind.any : Kind :=
  ⟨[.bytes, .integer, .float, .boolean, .timestamp, .regex, .null, .array, .object]⟩

/-- Modelled from the spec: `Kind::empty()`. -/
def Kind.empty : Kind := ⟨[]⟩

/-- Modelled from the spec: `Kind::add_bytes`. -/
def Kind.add_bytes (k : Kind) : Kind := ⟨.bytes :: k.prims⟩

/-- Modelled from the spec: `Kind::add_integer`. -/
def Kind.add_integer (k : Kind) : Kind := ⟨.integer :: k.prims⟩

/-- Modelled from the spec: the kind can be an object. -/
def Kind.is_object (k : Kind) : Bool := k.prims.contains .object

/-- Modelled from the spec: the kind can be an array. -/
def Kind.is_array (k : Kind) : Bool := k.prims.contains .array

/-- Modelled from the spec: the kind can only resolve to collection shapes
("If the target can resolve to a non-collection type, this again returns
any"). -/
def Kind.is_collection (k : Kind) : Bool :=
  !k.prims.isEmpty && k.prims.all (fun p => p = .array || p = .object)

/-- `TypeDef` from the spec data model: a kind together with a fallibility
flag.  The `objectReduced` and `arrayReduced` fields model the collaborator
calls `as_object().map(reduced_kind)` and `as_array().map(reduced_kind)`
used by the closure variable-kind rule. -/
structure TypeDef where
  kind : Kind
  fallible : Bool
  objectReduced : Option Kind := none
  arrayReduced : Option Kind := none
  deriving DecidableEq, Repr

/-- `TypeDef::with_fallibility`. -/
def TypeDef.with_fallibility (td : TypeDef) (f : Bool) : TypeDef :=
  { td with fallible := f }

/-- `TypeDef::is_fallible`. -/
def TypeDef.is_fallible (td : TypeDef) : Bool := td.fallible

/-- `TypeDef::is_collection`, delegating to the kind. -/
def TypeDef.is_collection (td : TypeDef) : Bool := td.kind.is_collection

/-- `TypeDef::is_object`, delegating to the kind. -/
def TypeDef.is_object (td : TypeDef) : Bool := td.kind.is_object

/-- `TypeDef::is_array`, delegating to the kind. -/
def TypeDef.is_array (td : TypeDef) : Bool := td.kind.is_array

/-- `Span`: a half-open byte range.  The source field names are `start` and
`end`; `end` is a Lean keyword so the second field is called `stop`. -/
structure Span where
  start : Nat
  stop : Nat
  deriving DecidableEq, Repr

/-- Model of an already-typed expression (the `Expression` collaborator).
Its `type_def` is independent of scope in this embedding; `value` models
`as_value()`, and `updateErr` models the result of `update_state` (an error
message when it fails). -/
structure Expr where
  id : Nat
  typeDef : TypeDef
  value : Option Nat := none
  updateErr : Option String := none
  deriving DecidableEq, Repr

/-- `type_def::Details`: the information stored per variable in the local
scope. -/
structure Details where
  type_def : TypeDef
  value : Option Nat
  deriving DecidableEq, Repr

/-- `LocalEnv`: the mutable lexical scope, modelled as a lookup function. -/
def LocalEnv := String → Option Details

/-- `LocalEnv::insert_variable`. -/
def LocalEnv.insert_variable (env : LocalEnv) (ident : String) (d : Details) : LocalEnv :=
  fun x => if x = ident then some d else env x

/-- `LocalEnv::remove_variable`: returns the prior binding together with the
updated environment. -/
def LocalEnv.remove_variable (env : LocalEnv) (ident : String) :
    Option Details × LocalEnv :=
  (env ident, fun x => if x = ident then none else env x)

/-- `Parameter` from `function.rs`: keyword, declared kind, required flag. -/
structure Parameter where
  keyword : String
  kind : Kind
  required : Bool
  deriving DecidableEq, Repr

/-- A `Node<FunctionArgument>`: the node span, the optional argument keyword
with its span, the expression, and the span used by
`FunctionArgument::span()`. -/
structure NArg where
  span : Span
  keyword : Option String
  keywordSpan : Option Span := none
  expr : Expr
  exprSpan : Span := ⟨0, 0⟩
  deriving DecidableEq, Repr

/-- `ArgumentList`: a keyword-to-expression map; `insert` overwrites the
binding for an existing keyword (last writer wins). -/
structure ArgList where
  arguments : List (String × Expr)
  deriving DecidableEq, Repr

/-- `ArgumentList::insert` (map semantics: overwrite if the keyword is
present, append otherwise). -/
def ArgList.insert (l : ArgList) (k : String) (e : Expr) : ArgList :=
  if l.arguments.any (fun x => x.1 = k)
  then ⟨l.arguments.map (fun x => if x.1 = k then (k, e) else x)⟩
  else ⟨l.arguments ++ [(k, e)]⟩

/-- `ArgumentList` lookup (`list.arguments.get(keyword)`). -/
def ArgList.get (l : ArgList) (k : String) : Option Expr :=
  (l.arguments.find? (fun x => x.1 = k)).map (fun x => x.2)

/-- `ArgumentList::keywords`. -/
def ArgList.keywords (l : ArgList) : List String :=
  l.arguments.map (fun x => x.1)

/-- `closure::VariableKind`. -/
inductive VariableKind where
  | exact (k : Kind)
  | target
  | targetInnerValue
  | targetInnerKey
  deriving DecidableEq, Repr

/-- A closure variable declaration (`closure::Variable`). -/
structure ClosureVar where
  kind : VariableKind
  deriving DecidableEq, Repr

/-- `closure::Input`: one candidate closure signature.  The source fields
`variables` and `example` are Lean keywords, so they are named `vars` and
`exampleCode` here. -/
structure Input where
  parameter_keyword : String
  kind : Kind
  vars : List ClosureVar
  output : Kind
  exampleCode : String := ""
  deriving DecidableEq, Repr

/-- `closure::Definition` (named `ClosureDefinition` in the spec). -/
structure ClosureDef where
  inputs : List Input
  deriving DecidableEq, Repr

/-- The `Function` plugin data consumed by the resolver: identifier, parameter
list and optional closure definition.  The `compile` hook is supplied
separately at compile time. -/
structure Func where
  identifier : String
  parameters : List Parameter
  closureDef : Option ClosureDef := none
  deriving DecidableEq, Repr

/-- The 14-variant error taxonomy of `function_call.rs`, with the fields the
source constructors carry (the boxed diagnostic of `Compilation` is modelled
as a string payload). -/
inductive Error where
  | Undefined (ident_span : Span) (ident : String) (idents : List String)
  | WrongNumberOfArgs (arguments_span : Span) (max : Nat)
  | UnknownKeyword (keyword_span : Span) (ident_span : Span) (keywords : List String)
  | MissingArgument (call_span : Span) (keyword : String) (position : Nat)
  | Compilation (call_span : Span) (error : String)
  | AbortInfallible (ident_span : Span) (abort_span : Span)
  | InvalidArgumentKind (function_ident : String) (abort_on_error : Bool)
      (arguments_fmt : List String) (parameter : Parameter) (got : Kind)
      (argument : NArg) (argument_span : Span)
  | FallibleArgument (expr_span : Span)
  | UpdateState (call_span : Span) (error : String)
  | UnexpectedClosure (call_span : Span) (closure_span : Span)
  | MissingClosure (call_span : Span) (exampleCode : Option String)
  | ClosureArityMismatch (ident_span : Span) (closure_arguments_span : Span)
      (expected : Nat) (supplied : Nat)
  | ClosureParameterTypeMismatch (call_span : Span) (found_kind : Kind)
  | ReturnTypeMismatch (block_span : Span) (found_kind : Kind) (expected_kind : Kind)
  deriving DecidableEq, Repr

/-- `DiagnosticMessage::code` for `Error` (source lines 801-820), the
wire-stable diagnostic codes. -/
def Error.code : Error → Nat
  | .Undefined _ _ _ => 105
  | .WrongNumberOfArgs _ _ => 106
  | .UnknownKeyword _ _ _ => 108
  | .Compilation _ _ => 610
  | .MissingArgument _ _ _ => 107
  | .AbortInfallible _ _ => 620
  | .InvalidArgumentKind _ _ _ _ _ _ _ => 110
  | .FallibleArgument _ => 630
  | .UpdateState _ _ => 640
  | .UnexpectedClosure _ _ => 109
  | .MissingClosure _ _ => 111
  | .ClosureArityMismatch _ _ _ _ => 120
  | .ClosureParameterTypeMismatch _ _ => 121
  | .ReturnTypeMismatch _ _ _ => 122

/-- The lowered `FunctionCall` record.  `closure` models the optional
`FunctionClosure` as its variables paired with the compiled block. -/
structure FunctionCall where
  abort_on_error : Bool
  expr : Expr
  maybe_fallible_arguments : Bool
  closure_fallible : Bool
  closure : Option (List String × Expr)
  span : Span
  ident : String
  function_id : Nat
  arguments : List NArg
  deriving DecidableEq, Repr

/-- `Expression::type_def` for `FunctionCall` (source lines 586-670): start
from the lowered expression type, set fallible for partially-matching
arguments, set fallible for a fallible closure, and finally clear fallible
when abort-on-error is set. -/
def FunctionCall.type_def (fc : FunctionCall) : TypeDef :=
  let td := fc.expr.typeDef
  let td := if fc.maybe_fallible_arguments then td.with_fallibility true else td
  let td := if fc.closure_fallible then td.with_fallibility true else td
  if fc.abort_on_error then td.with_fallibility false else td

/-- Parameter resolution for one argument (source lines 94-114): a positional
argument increments the cursor and takes the parameter at the old cursor; a
keyword argument finds the parameter with that keyword and advances the
cursor only when the parameter's position equals the cursor. -/
def resolveParam (params : List Parameter) (index : Nat) (kw : Option String) :
    Option Parameter × Nat :=
  match kw with
  | none =>
    let index := index + 1
    (params.get? (index - 1), index)
  | some k =>
    match params.enum.find? (fun ip => ip.2.keyword = k) with
    | none => (none, index)
    | some (pos, param) => (some param, if pos = index then index + 1 else index)

/-- Running state of the binder loop in `Builder::new`: the positional cursor,
the partial-match flag, the argument list built so far, and (as
instrumentation for the specification) the list of bound
(parameter, argument) pairs in scan order. -/
structure BindState where
  index : Nat
  maybe_fallible_arguments : Bool
  list : ArgList
  pairs : List (Parameter × NArg)
  deriving DecidableEq, Repr

/-- One iteration of the binder loop in `Builder::new` (source lines 91-151):
resolve the parameter (an unresolvable positional argument panics inside
`keyword_span().expect`, modelled as `none`; an unknown keyword errors),
check the argument kind against the parameter kind, then check argument
fallibility, then insert into the argument list. -/
def bindStep (function_ident : String) (abort_on_error : Bool)
    (arguments_fmt : List String) (params : List Parameter) (ident_span : Span)
    (st : BindState) (node : NArg) : Option (Except Error BindState) :=
  match (resolveParam params st.index node.keyword).1 with
  | none =>
    match node.keywordSpan with
    | none => none
    | some ksp =>
      some (.error (.UnknownKeyword ksp ident_span (params.map (fun p => p.keyword))))
  | some parameter =>
    let index := (resolveParam params st.index node.keyword).2
    let argument_type_def := node.expr.typeDef
    let expr_kind := argument_type_def.kind
    let param_kind := parameter.kind
    if param_kind.intersects expr_kind then
      let maybe := st.maybe_fallible_arguments || !param_kind.is_superset expr_kind
      if argument_type_def.is_fallible then
        some (.error (.FallibleArgument node.exprSpan))
      else
        some (.ok { index := index, maybe_fallible_arguments := maybe,
                    list := st.list.insert parameter.keyword node.expr,
                    pairs := st.pairs ++ [(parameter, node)] })
    else
      some (.error (.InvalidArgumentKind function_ident abort_on_error
        arguments_fmt parameter expr_kind node node.span))

/-- The binder loop of `Builder::new` over all arguments. -/
def bindLoop (function_ident : String) (abort_on_error : Bool)
    (arguments_fmt : List String) (params : List Parameter) (ident_span : Span) :
    List NArg → BindState → Option (Except Error BindState)
  | [], st => some (.ok st)
  | node :: rest, st =>
    match bindStep function_ident abort_on_error arguments_fmt params ident_span st node with
    | none => none
    | some (.error e) => some (.error e)
    | some (.ok st2) =>
      bindLoop function_ident abort_on_error arguments_fmt params ident_span rest st2

/-- Closure input selection (source lines 193-234): walk the declared inputs
in order; an input whose parameter keyword has no bound argument is skipped;
an input whose kind is not a superset of the argument kind is skipped with the
argument kind remembered; the first input passing both tests is selected.  If
none is selected, the error carries the last-seen mismatched kind, or
`Kind.any` when none was recorded. -/
def selectInput (call_span : Span) (list : ArgList) :
    List Input → Option Kind → Except Error (Input × Expr)
  | [], errFound =>
    .error (.ClosureParameterTypeMismatch call_span (errFound.getD Kind.any))
  | input :: rest, errFound =>
    match list.get input.parameter_keyword with
    | none => selectInput call_span list rest errFound
    | some expr =>
      if input.kind.is_superset expr.typeDef.kind then .ok (input, expr)
      else selectInput call_span list rest (some expr.typeDef.kind)

/-- The `VariableKind` rule (source lines 276-332): derive the details stored
for one closure variable from the matched target argument. -/
def deriveDetails (input_var : ClosureVar) (target : Expr) : Details :=
  let type_def := target.typeDef
  match input_var.kind with
  | .exact kind => ⟨{ kind := kind, fallible := false }, none⟩
  | .target => ⟨target.typeDef, target.value⟩
  | .targetInnerValue =>
    let kind :=
      match type_def.objectReduced with
      | some k => k
      | none =>
        match type_def.arrayReduced with
        | some k => k
        | none => Kind.any
    ⟨{ kind := kind, fallible := false }, none⟩
  | .targetInnerKey =>
    let kind :=
      if type_def.is_collection then
        let k0 := Kind.empty
        let k1 := if type_def.is_object then k0.add_bytes else k0
        if type_def.is_array then k1.add_integer else k1
      else Kind.any
    ⟨{ kind := kind, fallible := false }, none⟩

/-- The closure-variable insertion loop of `Builder::new` (source lines
272-337): each supplied closure variable in input-declaration position is
inserted into the local scope with its derived details.  The source indexes
`variables[index]`; the arity check guarantees both lists have the same
length, so the pairing is a zip. -/
def insertClosureVars (input_vars : List ClosureVar) (vars : List String)
    (target : Expr) (env : LocalEnv) : LocalEnv :=
  (List.zip input_vars vars).foldl
    (fun acc p => acc.insert_variable p.2 (deriveDetails p.1 target)) env

/-- The `Builder` produced by `Builder::new`: everything `compile` needs,
plus the instrumented bound-pair list. -/
structure Builder where
  abort_on_error : Bool
  maybe_fallible_arguments : Bool
  call_span : Span
  ident_span : Span
  function_id : Nat
  arguments : List NArg
  closure : Option (List String × Input)
  list : ArgList
  function : Func
  pairs : List (Parameter × NArg)
  deriving DecidableEq, Repr

/-- The argument span of the `WrongNumberOfArgs` diagnostic (source lines
69-74): from the start of the first argument to the end of the last.  Only
used with a non-empty argument list (the arity check guarantees it). -/
def argumentsSpan : List NArg → Span
  | [] => ⟨0, 0⟩
  | a :: rest => ⟨a.span.start, ((a :: rest).getLast (by simp)).span.stop⟩

/-- The closure-arguments span of the `ClosureArityMismatch` diagnostic
(source lines 245-249): from the first supplied closure variable to the last,
or the call span when none were supplied. -/
def closureVarsSpan (call_span : Span) : List (Span × String) → Span
  | [] => call_span
  | v :: rest => ⟨v.1.start, ((v :: rest).getLast (by simp)).1.stop⟩

/-- `Builder::new` (source lines 34-364): registry lookup, arity ceiling,
binder loop, missing-required check, then closure validation with insertion
of the closure variables into the local scope.  Returns the possibly-mutated
local scope alongside the result; panics are modelled as `none`. -/
def builderNew (call_span : Span) (ident_node : Span × String)
    (abort_on_error : Bool) (arguments : List NArg) (funcs : List Func)
    (localIn : LocalEnv)
    (closure_variables : Option (Span × List (Span × String))) :
    Option (Except Error Builder × LocalEnv) :=
  let ident_span := ident_node.1
  let ident := ident_node.2
  match funcs.enum.find? (fun f => f.2.identifier = ident) with
  | none =>
    some (.error (.Undefined ident_span ident (funcs.map (fun f => f.identifier))), localIn)
  | some (function_id, function) =>
    if function.parameters.length < arguments.length then
      some (.error (.WrongNumberOfArgs (argumentsSpan arguments)
        function.parameters.length), localIn)
    else
      let arguments_fmt := arguments.map (fun a => toString a.expr.id)
      match bindLoop function.identifier abort_on_error arguments_fmt
          function.parameters ident_span arguments ⟨0, false, ⟨[]⟩, []⟩ with
      | none => none
      | some (.error e) => some (.error e, localIn)
      | some (.ok st) =>
        match function.parameters.enum.find?
            (fun ip => ip.2.required && !(st.list.keywords.contains ip.2.keyword)) with
        | some (i, p) => some (.error (.MissingArgument call_span p.keyword i), localIn)
        | none =>
          match function.closureDef, closure_variables with
          | none, some vars => some (.error (.UnexpectedClosure call_span vars.1), localIn)
          | some definition, none =>
            some (.error (.MissingClosure call_span
              ((definition.inputs.get? 0).map (fun input => input.exampleCode))), localIn)
          | some definition, some vars =>
            match selectInput call_span st.list definition.inputs none with
            | .error e => some (.error e, localIn)
            | .ok (input, target) =>
              if input.vars.length ≠ vars.2.length then
                some (.error (.ClosureArityMismatch ident_span
                  (closureVarsSpan call_span vars.2)
                  input.vars.length vars.2.length), localIn)
              else
                let varNames := vars.2.map (fun v => v.2)
                let localOut := insertClosureVars input.vars varNames target localIn
                let b : Builder :=
                  { abort_on_error := abort_on_error,
                    maybe_fallible_arguments := st.maybe_fallible_arguments,
                    call_span := call_span, ident_span := ident_span,
                    function_id := function_id, arguments := arguments,
                    closure := some (varNames, input), list := st.list,
                    function := function, pairs := st.pairs }
                some (.ok b, localOut)
          | none, none =>
            let b : Builder :=
              { abort_on_error := abort_on_error,
                maybe_fallible_arguments := st.maybe_fallible_arguments,
                call_span := call_span, ident_span := ident_span,
                function_id := function_id, arguments := arguments,
                closure := none, list := st.list,
                function := function, pairs := st.pairs }
            some (.ok b, localIn)

/-- The closure-variable unbinding loop of `Builder::compile` (source lines
382-389): for each closure variable, remove it from the snapshot; when the
snapshot held a binding, restore it into the local scope, otherwise remove
the variable from the local scope.  Returns the updated (snapshot, local)
pair. -/
def unbindClosureVars : List String → LocalEnv → LocalEnv → LocalEnv × LocalEnv
  | [], snapshot, env => (snapshot, env)
  | v :: rest, snapshot, env =>
    match snapshot.remove_variable v with
    | (some details, snapshot2) =>
      unbindClosureVars rest snapshot2 (env.insert_variable v details)
    | (none, snapshot2) =>
      unbindClosureVars rest snapshot2 (env.remove_variable v).2

/-- The tail of `Builder::compile` after the function compile hook succeeded
(source lines 432-462): the abort-on-error sanity check, then `update_state`,
then construction of the lowered `FunctionCall`. -/
def afterHook (b : Builder) (expr : Expr) (closure_fallible : Bool)
    (fnclosure : Option (List String × Expr)) : Except Error FunctionCall :=
  if b.abort_on_error && !b.maybe_fallible_arguments && !expr.typeDef.is_fallible then
    .error (.AbortInfallible b.ident_span (Span.mk b.ident_span.stop (b.ident_span.stop + 1)))
  else
    match expr.updateErr with
    | some msg => .error (.UpdateState b.call_span msg)
    | none =>
      .ok { abort_on_error := b.abort_on_error, expr := expr,
            maybe_fallible_arguments := b.maybe_fallible_arguments,
            closure_fallible := closure_fallible, closure := fnclosure,
            span := b.call_span, ident := b.function.identifier,
            function_id := b.function_id, arguments := b.arguments }

/-- `Builder::compile` (source lines 366-463).  The closure block (a
`Node<Block>`, here a span paired with its compiled expression) is unbound
first, then the block return type is checked against the matched input's
output kind, then the function compile hook result is consumed (failure
becomes `Compilation`), then `afterHook` finishes the call.  The external
context swap has no observable effect in this embedding and is omitted; a
missing block for a present closure models the `expect` panic as `none`. -/
def Builder.compile (b : Builder) (localIn : LocalEnv) (snapshot : LocalEnv)
    (closure_block : Option (Span × Expr)) (hook : Except String Expr) :
    Option (Except Error FunctionCall × LocalEnv) :=
  match b.closure with
  | some (variableNames, input) =>
    match closure_block with
    | none => none
    | some (block_span, block) =>
      let (_, local1) := unbindClosureVars variableNames snapshot localIn
      let closure_fallible := block.typeDef.is_fallible
      let found_kind := block.typeDef.kind
      let expected_kind := input.output
      if expected_kind.is_superset found_kind then
        let fnclosure := some (variableNames, block)
        match hook with
        | .error err => some (.error (.Compilation b.call_span err), local1)
        | .ok expr => some (afterHook b expr closure_fallible fnclosure, local1)
      else
        some (.error (.ReturnTypeMismatch block_span found_kind expected_kind), local1)
  | none =>
    match hook with
    | .error err => some (.error (.Compilation b.call_span err), localIn)
    | .ok expr => some (afterHook b expr false none, localIn)

/-- Modelled from the spec: `levenstein::distance` lives outside the provided
source; the spec describes it as Levenshtein distance over character
vectors. -/
def levDistance : List Char → List Char → Nat
  | [], bs => bs.length
  | a :: as, [] => (a :: as).length
  | a :: as, b :: bs =>
    if a = b then levDistance as bs
    else 1 + min (levDistance as (b :: bs)) (min (levDistance (a :: as) bs) (levDistance as bs))
  termination_by as bs => as.length + bs.length
  decreasing_by all_goals simp_arith

/-- Model of Rust `Iterator::min_by_key` over candidates paired with their
scores: the first pair with minimal score ("If several elements are equally
minimum, the first element is returned").  The source enumerates indices and
then indexes `idents[idx]`; pairing each candidate with its score is the same
selection. -/
def minByScore : List (String × Nat) → Option (String × Nat)
  | [] => none
  | x :: xs =>
    match minByScore xs with
    | none => some x
    | some y => if y.2 < x.2 then some y else some x

/-- The nearest-identifier suggestion of the `Undefined` diagnostic (source
lines 832-850): minimise the Levenshtein distance between the misspelled
identifier's characters and each registry identifier's characters, with no
threshold. -/
def undefinedSuggestion (ident : String) (idents : List String) : Option String :=
  (minByScore (idents.map
    (fun possible => (possible, levDistance ident.data possible.data)))).map
    (fun x => x.1)

/-- The two error payloads of `FunctionCall::resolve_arguments`:
`notFound k` models the string `parameter k not found.` and `tooMany` models
the string `Too many parameters`. -/
inductive RArgErr where
  | notFound (keyword : String)
  | tooMany
  deriving DecidableEq, Repr

/-- First pass of `FunctionCall::resolve_arguments` (source lines 505-523):
place every keyword argument into its parameter slot (an unknown keyword is
an error) and collect the positional arguments in source order.  The slot
indexing `result[pos]` is guarded by `get?`; an out-of-bounds index would be
a panic (`none`), though `pos` always comes from a `position` search over
`params` and `result` has the length of `params`. -/
def placeNamed (params : List Parameter) :
    List NArg → List (String × Option NArg) → List NArg →
    Option (Except RArgErr (List (String × Option NArg) × List NArg))
  | [], result, unnamed => some (.ok (result, unnamed))
  | a :: rest, result, unnamed =>
    match a.keyword with
    | none => placeNamed params rest result (unnamed ++ [a])
    | some k =>
      match params.enum.find? (fun ip => ip.2.keyword = k) with
      | none => some (.error (.notFound k))
      | some (pos, _) =>
        match result.get? pos with
        | none => none
        | some entry => placeNamed params rest (result.set pos (entry.1, some a)) unnamed

/-- The slot search of the positional-fill loop (source line 528,
`while result[pos].1.is_some() { pos += 1 }`), scanning the slots from
position `pos` (the list argument is `result.drop pos`): returns the first
position holding an empty slot, or `none` when the scan indexes past the end
of the vector, which in the source is a panic. -/
def findSlotAux : List (String × Option NArg) → Nat → Option Nat
  | [], _ => none
  | x :: xs, pos => if x.2.isSome then findSlotAux xs (pos + 1) else some pos

/-- Second pass of `FunctionCall::resolve_arguments` (source lines 526-537):
fill the remaining positional arguments left-to-right into the empty slots,
with the cursor `pos` persisting across iterations.  The `pos > result.len()`
check after the search is kept as in the source. -/
def fillUnnamed : List NArg → List (String × Option NArg) → Nat →
    Option (Except RArgErr (List (String × Option NArg)))
  | [], result, _ => some (.ok result)
  | a :: rest, result, pos =>
    match findSlotAux (result.drop pos) pos with
    | none => none
    | some p =>
      if result.length < p then some (.error .tooMany)
      else
        match result.get? p with
        | none => none
        | some entry => fillUnnamed rest (result.set p (entry.1, some a)) p

/-- `FunctionCall::resolve_arguments` (source lines 495-540): normalise the
stored argument list into a dense vector parallel to the parameter list. -/
def resolve_arguments (arguments : List NArg) (params : List Parameter) :
    Option (Except RArgErr (List (String × Option NArg))) :=
  let result := params.map (fun p => (p.keyword, (none : Option NArg)))
  match placeNamed params arguments result [] with
  | none => none
  | some (.error e) => some (.error e)
  | some (.ok (result2, unnamed)) => fillUnnamed unnamed result2 0

/-- The partial-match predicate on a bound (parameter, argument) pair: the
kinds intersect but the parameter kind is not a superset of the argument
kind. -/
def partialPair (pr : Parameter × NArg) : Bool :=
  pr.1.kind.intersects pr.2.expr.typeDef.kind &&
    !pr.1.kind.is_superset pr.2.expr.typeDef.kind

/-- Specification-side restatement of closure input selection, written from
the claim: the first input that both has a bound argument and accepts its
kind. -/
def specFirstMatch (list : ArgList) (inputs : List Input) : Option Input :=
  inputs.find? (fun inp =>
    match list.get inp.parameter_keyword with
    | none => false
    | some e => inp.kind.is_superset e.typeDef.kind)

/-- Specification-side restatement, written from the claim: the kinds of the
bound-but-mismatching inputs, in declaration order. -/
def specMismatchKinds (list : ArgList) (inputs : List Input) : List Kind :=
  inputs.filterMap (fun inp =>
    match list.get inp.parameter_keyword with
    | none => none
    | some e =>
      if inp.kind.is_superset e.typeDef.kind then none else some e.typeDef.kind)

/-- Number of empty slots in a partially filled argument vector. -/
def countNone (l : List (String × Option NArg)) : Nat :=
  l.countP (fun x => x.2.isNone)

/-- The empty local scope. -/
def envEmpty : LocalEnv := fun _ => none

/-- A concrete integer kind, used by the concrete scenarios. -/
def kInt : Kind := ⟨[.integer]⟩

/-- A concrete bytes kind. -/
def kBytes : Kind := ⟨[.bytes]⟩

/-- An infallible integer-typed expression with the given id. -/
def eInt (n : Nat) : Expr := { id := n, typeDef := { kind := kInt, fallible := false } }

/-- Parameter `one` of the `test` scenario function (spec section 8). -/
def pOne : Parameter := ⟨"one", kInt, false⟩

/-- Parameter `two` of the `test` scenario function. -/
def pTwo : Parameter := ⟨"two", kInt, false⟩

/-- Parameter `three` of the `test` scenario function. -/
def pThree : Parameter := ⟨"three", kInt, false⟩

/-- The scenario function `test(one: int?, two: int?, three: int?)`. -/
def funcTest : Func := { identifier := "test", parameters := [pOne, pTwo, pThree] }

/-- A keyword argument node carrying the integer expression with id `n`. -/
def aKw (k : String) (n : Nat) : NArg :=
  { span := ⟨n, n + 1⟩, keyword := some k, keywordSpan := some ⟨n, n⟩, expr := eInt n }

/-- A positional argument node carrying the integer expression with id `n`. -/
def aPos (n : Nat) : NArg := { span := ⟨n, n + 1⟩, keyword := none, expr := eInt n }

/-- The argument list of scenario 4, `test(three=3, 2, one=1)`. -/
def argsScn4 : List NArg := [aKw "three" 3, aPos 2, aKw "one" 1]

/-- A fallible bytes-typed expression. -/
def eFal : Expr := { id := 7, typeDef := { kind := kBytes, fallible := true } }

/-- A positional argument carrying the fallible bytes expression. -/
def nFal : NArg := { span := ⟨5, 6⟩, keyword := none, expr := eFal, exprSpan := ⟨5, 6⟩ }

/-- A single-parameter function expecting an integer. -/
def funcT1 : Func := { identifier := "t", parameters := [⟨"p", kInt, true⟩] }

/-- The initial binder state. -/
def st0 : BindState := ⟨0, false, ⟨[]⟩, []⟩

/-- Concrete details used by the scope-balance witness. -/
def dW : Details := ⟨{ kind := kBytes, fallible := false }, none⟩

/-- A snapshot holding a binding for `v`. -/
def snapW : LocalEnv := envEmpty.insert_variable "v" dW

-- Equality of `Except` results is decidable; used to evaluate the embedding
-- at concrete inputs.
deriving instance DecidableEq for Except

/-- An infallible expression of kind integer-or-bytes (a partial match
against an integer parameter). -/
def eIB : Expr := { id := 9, typeDef := { kind := ⟨[.integer, .bytes]⟩, fallible := false } }

/-- A positional argument carrying `eIB`. -/
def nIB : NArg := { span := ⟨0, 1⟩, keyword := none, expr := eIB }

/-- A single-parameter function expecting an integer, used by the C2
witness. -/
def funcP : Func := { identifier := "t2", parameters := [⟨"p", kInt, false⟩] }

/-- The builder produced by binding `nIB` against `funcP`. -/
def bW : Builder :=
  { abort_on_error := false, maybe_fallible_arguments := true, call_span := ⟨0, 5⟩,
    ident_span := ⟨0, 2⟩, function_id := 0, arguments := [nIB], closure := none,
    list := ⟨[("p", eIB)]⟩, function := funcP,
    pairs := [(⟨"p", kInt, false⟩, nIB)] }

/-- An argument list binding keyword `value` to `eIB`. -/
def listW : ArgList := ⟨[("value", eIB)]⟩

/-- A closure input whose parameter keyword has no bound argument. -/
def inpMiss : Input := { parameter_keyword := "other", kind := Kind.any, vars := [], output := Kind.any }

/-- A closure input accepting any kind on parameter `value`. -/
def inpVal : Input := { parameter_keyword := "value", kind := Kind.any, vars := [], output := Kind.any }

/-- A closure input requiring an integer on parameter `value`. -/
def inpInt : Input := { parameter_keyword := "value", kind := kInt, vars := [], output := Kind.any }

/-- A builder with the abort-on-error marker set and no partially matching
arguments, used by the C7 witness. -/
def bW7 : Builder :=
  { abort_on_error := true, maybe_fallible_arguments := false, call_span := ⟨0, 5⟩,
    ident_span := ⟨0, 2⟩, function_id := 0, arguments := [], closure := none,
    list := ⟨[]⟩, function := funcP, pairs := [] }

/-- C1: for every lowered FunctionCall, the TypeDef returned by type_def
satisfies the fallibility algebra: if abort_on_error is true the result is
infallible (abort is the final override, applied after the other two flags);
otherwise the result is fallible exactly when expr.type_def is fallible, or
maybe_fallible_arguments is true, or closure_fallible is true. -/
theorem C1_fallibility_algebra (fc : FunctionCall) :
    fc.type_def.fallible =
      if fc.abort_on_error then false
      else fc.expr.typeDef.fallible || fc.maybe_fallible_arguments || fc.closure_fallible := by
  obtain ⟨a, e, m, c, cl, s, i, f, args⟩ := fc
  cases a <;> cases m <;> cases c <;>
    simp [FunctionCall.type_def, TypeDef.with_fallibility]

/-- C8: each of the 14 error kinds maps to its wire-stable diagnostic code,
and every code is at most 199 (syntactic/binding) or in the 600 range
(semantic/compile). -/
theorem C8_error_codes :
    (∀ s i l, (Error.Undefined s i l).code = 105) ∧
    (∀ s m, (Error.WrongNumberOfArgs s m).code = 106) ∧
    (∀ s k p, (Error.MissingArgument s k p).code = 107) ∧
    (∀ s t l, (Error.UnknownKeyword s t l).code = 108) ∧
    (∀ s t, (Error.UnexpectedClosure s t).code = 109) ∧
    (∀ f a m p g n s, (Error.InvalidArgumentKind f a m p g n s).code = 110) ∧
    (∀ s e, (Error.MissingClosure s e).code = 111) ∧
    (∀ s t e u, (Error.ClosureArityMismatch s t e u).code = 120) ∧
    (∀ s k, (Error.ClosureParameterTypeMismatch s k).code = 121) ∧
    (∀ s f e, (Error.ReturnTypeMismatch s f e).code = 122) ∧
    (∀ s e, (Error.Compilation s e).code = 610) ∧
    (∀ s t, (Error.AbortInfallible s t).code = 620) ∧
    (∀ s, (Error.FallibleArgument s).code = 630) ∧
    (∀ s e, (Error.UpdateState s e).code = 640) ∧
    (∀ e : Error, e.code ≤ 199 ∨ (600 ≤ e.code ∧ e.code ≤ 699)) := by
  refine ⟨fun _ _ _ => rfl, fun _ _ => rfl, fun _ _ _ => rfl, fun _ _ _ => rfl,
    fun _ _ => rfl, fun _ _ _ _ _ _ _ => rfl, fun _ _ => rfl, fun _ _ _ _ => rfl,
    fun _ _ => rfl, fun _ _ _ => rfl, fun _ _ => rfl, fun _ _ => rfl, fun _ => rfl,
    fun _ _ => rfl, ?_⟩
  intro e
  cases e <;> simp only [Error.code] <;> omega

/-- C7: after the function compile hook succeeds, the finaliser returns
AbortInfallible exactly when abort_on_error is set, maybe_fallible_arguments
is clear, and the compiled expression's type_def is infallible; the error
carries the identifier span and the one-character span starting at the end of
the identifier span.  The third conjunct records that `Builder.compile`
finishes through this check. -/
theorem C7_abort_infallible_check (b : Builder) (expr : Expr) (cf : Bool)
    (cl : Option (List String × Expr)) :
    ((∃ s1 s2, afterHook b expr cf cl = .error (.AbortInfallible s1 s2)) ↔
      b.abort_on_error = true ∧ b.maybe_fallible_arguments = false ∧
        expr.typeDef.fallible = false) ∧
    (b.abort_on_error = true → b.maybe_fallible_arguments = false →
      expr.typeDef.fallible = false →
      afterHook b expr cf cl = .error (.AbortInfallible b.ident_span
        (Span.mk b.ident_span.stop (b.ident_span.stop + 1)))) ∧
    (∀ (localIn snapshot : LocalEnv) (cb : Option (Span × Expr)),
      b.closure = none →
      Builder.compile b localIn snapshot cb (.ok expr) =
        some (afterHook b expr false none, localIn)) := by
  refine ⟨?_, ?_, ?_⟩
  · cases hA : b.abort_on_error <;> cases hM : b.maybe_fallible_arguments <;>
      cases hF : expr.typeDef.fallible <;>
      cases hU : expr.updateErr <;>
      simp [afterHook, TypeDef.is_fallible, hA, hM, hF, hU]
  · intro h1 h2 h3
    simp [afterHook, TypeDef.is_fallible, h1, h2, h3]
  · intro localIn snapshot cb h
    simp [Builder.compile, h]

/-- Counterexample for C5: with the duplicated closure-variable list
`[v, v]` and a snapshot binding `v`, the unbinding loop leaves `v` removed
from the local scope (the first occurrence consumes the snapshot entry via
`remove_variable`, so the second occurrence hits the `None` arm and deletes
the just-restored binding), whereas the claimed union of the pre-resolution
scope with the snapshot's binding for `v` would map `v` to that binding. -/
theorem C5_counterexample :
    snapW "v" = some dW ∧
    (unbindClosureVars ["v", "v"] snapW (envEmpty.insert_variable "v" dW)).2 "v" = none ∧
    (some dW ≠ (none : Option Details)) := by
  refine ⟨by decide, by decide, by decide⟩

/-- C5 (amended): for distinct closure-variable names, the closure-variable
insertions performed before block compilation are exactly undone by the
unbinding loop in compile: for each closure variable, a binding present in
the snapshot is restored into the local scope and an absent one is removed,
so the final local scope agrees with the snapshot on the closure-variable
names and with the scope at unbind time everywhere else; dually, the
insertion pass of `Builder::new` touches only the closure-variable names. -/
theorem C5_scope_balance :
    (∀ (vs : List String) (snapshot env : LocalEnv) (x : String),
      vs.Nodup →
      (unbindClosureVars vs snapshot env).2 x =
        (if x ∈ vs then snapshot x else env x)) ∧
    (∀ (ivs : List ClosureVar) (vs : List String) (target : Expr)
        (env : LocalEnv) (x : String), x ∉ vs →
      insertClosureVars ivs vs target env x = env x) := by
  constructor
  · intro vs
    induction vs with
    | nil => intro snapshot env x h; simp [unbindClosureVars]
    | cons v rest ih =>
      intro snapshot env x h
      have hv : v ∉ rest := (List.nodup_cons.mp h).1
      have hr : rest.Nodup := (List.nodup_cons.mp h).2
      rcases hval : snapshot v with _ | d
      · have hstep : unbindClosureVars (v :: rest) snapshot env =
            unbindClosureVars rest (fun y => if y = v then none else snapshot y)
              ((env.remove_variable v).2) := by
          simp [unbindClosureVars, LocalEnv.remove_variable, hval]
        rw [hstep, ih _ _ x hr]
        by_cases hxr : x ∈ rest
        · have hxv : x ≠ v := fun he => hv (he ▸ hxr)
          simp [hxr, hxv, LocalEnv.remove_variable]
        · by_cases hxv : x = v
          · subst hxv
            simp [hxr, LocalEnv.remove_variable, hval]
          · simp [hxr, hxv, LocalEnv.remove_variable]
      · have hstep : unbindClosureVars (v :: rest) snapshot env =
            unbindClosureVars rest (fun y => if y = v then none else snapshot y)
              (env.insert_variable v d) := by
          simp [unbindClosureVars, LocalEnv.remove_variable, hval]
        rw [hstep, ih _ _ x hr]
        by_cases hxr : x ∈ rest
        · have hxv : x ≠ v := fun he => hv (he ▸ hxr)
          simp [hxr, hxv, LocalEnv.insert_variable]
        · by_cases hxv : x = v
          · subst hxv
            simp [hxr, LocalEnv.insert_variable, hval]
          · simp [hxr, hxv, LocalEnv.insert_variable]
  · intro ivs
    induction ivs with
    | nil => intro vs target env x hx; simp [insertClosureVars]
    | cons i ivt ih =>
      intro vs target env x hx
      cases vs with
      | nil => simp [insertClosureVars]
      | cons v vt =>
        have h1 : insertClosureVars (i :: ivt) (v :: vt) target env =
            insertClosureVars ivt vt target
              (env.insert_variable v (deriveDetails i target)) := rfl
        have hxvt : x ∉ vt := fun hmem => hx (List.mem_cons_of_mem _ hmem)
        have hxv : x ≠ v := fun he => hx (he ▸ List.mem_cons_self v vt)
        rw [h1, ih vt target _ x hxvt]
        simp [LocalEnv.insert_variable, hxv]

/-- Witness for C5 at a concrete scope: unbinding restores the snapshot's
binding for `v`, and insertion leaves the unrelated name `w` untouched. -/
theorem C5_scope_balance_witness :
    List.Nodup ["v"] ∧ ("w" ∉ (["v"] : List String)) ∧
    (unbindClosureVars ["v"] snapW envEmpty).2 "v" = some dW ∧
    insertClosureVars [⟨.target⟩] ["v"] (eInt 0) envEmpty "w" = none := by
  refine ⟨by simp, by simp, ?_, ?_⟩
  · have h := C5_scope_balance.1 ["v"] snapW envEmpty "v" (by simp)
    simpa [snapW, envEmpty, LocalEnv.insert_variable] using h
  · exact C5_scope_balance.2 [⟨.target⟩] ["v"] (eInt 0) envEmpty "w" (by simp)

/-- Witness for C7: a concrete abort-marked builder with an infallible
compiled expression yields AbortInfallible with the one-character abort
span. -/
theorem C7_abort_infallible_witness :
    (bW7.abort_on_error = true) ∧ (bW7.maybe_fallible_arguments = false) ∧
    ((eInt 3).typeDef.fallible = false) ∧
    afterHook bW7 (eInt 3) false none = .error (.AbortInfallible ⟨0, 2⟩ ⟨2, 3⟩) := by
  refine ⟨rfl, rfl, rfl, ?_⟩
  exact (C7_abort_infallible_check bW7 (eInt 3) false none).2.1 rfl rfl rfl

/-- Inversion of a successful binder step: the resolved parameter's kind
intersects the argument kind, the argument is infallible, the bound pair is
recorded, and the partial-match flag accumulates. -/
theorem bindStep_ok_inv {fid : String} {ab : Bool} {fmt : List String}
    {params : List Parameter} {isp : Span} {st st2 : BindState} {node : NArg}
    (h : bindStep fid ab fmt params isp st node = some (.ok st2)) :
    ∃ p, (resolveParam params st.index node.keyword).1 = some p ∧
      p.kind.intersects node.expr.typeDef.kind = true ∧
      node.expr.typeDef.fallible = false ∧
      st2.pairs = st.pairs ++ [(p, node)] ∧
      st2.maybe_fallible_arguments =
        (st.maybe_fallible_arguments || !p.kind.is_superset node.expr.typeDef.kind) ∧
      st2.index = (resolveParam params st.index node.keyword).2 ∧
      st2.list = st.list.insert p.keyword node.expr := by
  unfold bindStep at h
  simp only [] at h
  split at h
  · split at h <;> simp at h
  · rename_i p hp
    split at h
    · rename_i hint
      split at h
      · simp at h
      · rename_i hfal
        simp only [Option.some.injEq, Except.ok.injEq] at h
        refine ⟨p, hp, by simpa using hint, by simpa [TypeDef.is_fallible] using hfal,
          ?_, ?_, ?_, ?_⟩ <;> rw [← h] <;> simp
    · simp at h

/-- Invariant of the binder loop: a successful run appends one bound pair per
argument, every recorded pair has intersecting kinds, and the partial-match
flag is the disjunction over the new pairs. -/
theorem bindLoop_ok_inv {fid : String} {ab : Bool} {fmt : List String}
    {params : List Parameter} {isp : Span} :
    ∀ (args : List NArg) (st st2 : BindState),
    bindLoop fid ab fmt params isp args st = some (.ok st2) →
    ∃ newPairs, st2.pairs = st.pairs ++ newPairs ∧
      st2.maybe_fallible_arguments =
        (st.maybe_fallible_arguments || newPairs.any partialPair) ∧
      ∀ pr ∈ newPairs, pr.1.kind.intersects pr.2.expr.typeDef.kind = true := by
  intro args
  induction args with
  | nil =>
    intro st st2 h
    simp only [bindLoop, Option.some.injEq, Except.ok.injEq] at h
    subst h
    exact ⟨[], by simp, by simp, by simp⟩
  | cons a rest ih =>
    intro st st2 h
    unfold bindLoop at h
    split at h
    · simp at h
    · simp at h
    · rename_i st1 hstep
      obtain ⟨p, hp, hint, hfal, hpairs, hmaybe, _, _⟩ := bindStep_ok_inv hstep
      obtain ⟨np, h1, h2, h3⟩ := ih st1 st2 h
      refine ⟨(p, a) :: np, ?_, ?_, ?_⟩
      · rw [h1, hpairs]; simp
      · rw [h2, hmaybe]
        have hpp : partialPair (p, a) = !p.kind.is_superset a.expr.typeDef.kind := by
          simp [partialPair, hint]
        simp [hpp, Bool.or_assoc]
      · intro pr hpr
        rcases List.mem_cons.mp hpr with hpr | hmem
        · subst hpr; exact hint
        · exact h3 pr hmem

/-- C2: for every call the binder accepts, maybe_fallible_arguments is true
exactly when some bound (parameter, argument) pair has intersecting kinds
with the parameter kind not a superset of the argument kind; and any
argument whose kind has empty intersection with its parameter is rejected
with InvalidArgumentKind. -/
theorem C2_partial_match_flag :
    (∀ (call_span : Span) (ident_node : Span × String) (ab : Bool)
        (arguments : List NArg) (funcs : List Func) (localIn localOut : LocalEnv)
        (cv : Option (Span × List (Span × String))) (b : Builder),
      builderNew call_span ident_node ab arguments funcs localIn cv =
        some (.ok b, localOut) →
      ((b.maybe_fallible_arguments = true ↔
        ∃ pr ∈ b.pairs, pr.1.kind.intersects pr.2.expr.typeDef.kind = true ∧
          pr.1.kind.is_superset pr.2.expr.typeDef.kind = false) ∧
       ∀ pr ∈ b.pairs, pr.1.kind.intersects pr.2.expr.typeDef.kind = true)) ∧
    (∀ (fid : String) (ab : Bool) (fmt : List String) (params : List Parameter)
        (isp : Span) (st : BindState) (node : NArg) (p : Parameter),
      (resolveParam params st.index node.keyword).1 = some p →
      p.kind.intersects node.expr.typeDef.kind = false →
      bindStep fid ab fmt params isp st node =
        some (.error (.InvalidArgumentKind fid ab fmt p node.expr.typeDef.kind
          node node.span))) := by
  constructor
  · intro cs idn ab args funcs li lo cv b h
    unfold builderNew at h
    simp only [] at h
    split at h
    · simp at h
    · rename_i fid f hfind
      split at h
      · simp at h
      · split at h
        · simp at h
        · simp at h
        · rename_i st hloop
          obtain ⟨np, h1, h2, h3⟩ := bindLoop_ok_inv args ⟨0, false, ⟨[]⟩, []⟩ st hloop
          simp only [List.nil_append] at h1
          have key1 : st.maybe_fallible_arguments = st.pairs.any partialPair := by
            rw [h2, h1]; simp
          have key2 : ∀ pr ∈ st.pairs, pr.1.kind.intersects pr.2.expr.typeDef.kind = true := by
            rw [h1]; exact h3
          have goalFor : ∀ b2 : Builder,
              b2.maybe_fallible_arguments = st.maybe_fallible_arguments →
              b2.pairs = st.pairs →
              ((b2.maybe_fallible_arguments = true ↔
                ∃ pr ∈ b2.pairs, pr.1.kind.intersects pr.2.expr.typeDef.kind = true ∧
                  pr.1.kind.is_superset pr.2.expr.typeDef.kind = false) ∧
               ∀ pr ∈ b2.pairs, pr.1.kind.intersects pr.2.expr.typeDef.kind = true) := by
            intro b2 hm hps
            rw [hm, hps]
            refine ⟨?_, key2⟩
            rw [key1, List.any_eq_true]
            constructor
            · rintro ⟨pr, hmem, hpp⟩
              refine ⟨pr, hmem, ?_⟩
              simpa [partialPair, Bool.and_eq_true, Bool.not_eq_true'] using hpp
            · rintro ⟨pr, hmem, hpp⟩
              refine ⟨pr, hmem, ?_⟩
              simp [partialPair, Bool.and_eq_true, Bool.not_eq_true', hpp.1, hpp.2]
          split at h
          · simp at h
          · split at h
            · simp at h
            · simp at h
            · split at h
              · simp at h
              · split at h
                · simp at h
                · simp only [Option.some.injEq, Prod.mk.injEq, Except.ok.injEq] at h
                  obtain ⟨rfl, -⟩ := h
                  exact goalFor _ rfl rfl
            · simp only [Option.some.injEq, Prod.mk.injEq, Except.ok.injEq] at h
              obtain ⟨rfl, -⟩ := h
              exact goalFor _ rfl rfl
  · intro fid ab fmt params isp st node p hp hint
    unfold bindStep
    rw [hp]
    simp [hint]

/-- Witness for C2 at a concrete accepted call with one partially matching
argument. -/
theorem C2_partial_match_flag_witness :
    (builderNew ⟨0, 5⟩ (⟨0, 2⟩, "t2") false [nIB] [funcP] envEmpty none =
      some (.ok bW, envEmpty)) ∧
    (bW.maybe_fallible_arguments = true ↔
      ∃ pr ∈ bW.pairs, pr.1.kind.intersects pr.2.expr.typeDef.kind = true ∧
        pr.1.kind.is_superset pr.2.expr.typeDef.kind = false) := by
  have hb : builderNew ⟨0, 5⟩ (⟨0, 2⟩, "t2") false [nIB] [funcP] envEmpty none =
      some (.ok bW, envEmpty) := by rfl
  exact ⟨hb, (C2_partial_match_flag.1 _ _ _ _ _ _ _ _ _ hb).1⟩

/-- Counterexample for C3: an argument that is both fallible and has a kind
with empty intersection against its parameter is rejected with
InvalidArgumentKind, not FallibleArgument, because the kind check runs
first. -/
theorem C3_counterexample :
    (builderNew ⟨0, 10⟩ (⟨0, 1⟩, "t") false [nFal] [funcT1] envEmpty none).map
        (fun r => r.1) =
      some (.error (.InvalidArgumentKind "t" false ["7"] ⟨"p", kInt, true⟩
        kBytes nFal nFal.span)) := by decide

/-- C3 (amended): the per-argument check first tests the argument kind
against the parameter kind (empty intersection yields InvalidArgumentKind,
even for a fallible argument) and only then tests fallibility, returning
FallibleArgument carrying the expression span for a fallible argument whose
kind intersects the parameter kind. -/
theorem C3_kind_check_first (fid : String) (ab : Bool) (fmt : List String)
    (params : List Parameter) (isp : Span) (st : BindState) (node : NArg)
    (p : Parameter)
    (hp : (resolveParam params st.index node.keyword).1 = some p) :
    (p.kind.intersects node.expr.typeDef.kind = false →
      bindStep fid ab fmt params isp st node =
        some (.error (.InvalidArgumentKind fid ab fmt p node.expr.typeDef.kind
          node node.span))) ∧
    (p.kind.intersects node.expr.typeDef.kind = true →
      node.expr.typeDef.fallible = true →
      bindStep fid ab fmt params isp st node =
        some (.error (.FallibleArgument node.exprSpan))) := by
  constructor
  · intro hint
    unfold bindStep
    rw [hp]
    simp [hint]
  · intro hint hf
    unfold bindStep
    rw [hp]
    simp [hint, hf, TypeDef.is_fallible]

/-- Witness for the amended C3 at the concrete fallible bytes argument. -/
theorem C3_kind_check_first_witness :
    ((resolveParam [⟨"p", kInt, true⟩] 0 none).1 = some ⟨"p", kInt, true⟩) ∧
    (Kind.intersects kInt kBytes = false) ∧
    (eFal.typeDef.fallible = true) ∧
    bindStep "t" false ["7"] [⟨"p", kInt, true⟩] ⟨0, 1⟩ st0 nFal =
      some (.error (.InvalidArgumentKind "t" false ["7"] ⟨"p", kInt, true⟩
        kBytes nFal nFal.span)) := by
  refine ⟨by decide, by decide, by decide, ?_⟩
  exact (C3_kind_check_first "t" false ["7"] [⟨"p", kInt, true⟩] ⟨0, 1⟩ st0 nFal
    ⟨"p", kInt, true⟩ (by decide)).1 (by decide)

/-- Counterexample for C4: in test(three=3, 2, one=1) the keyword `three`
sits at parameter position 2, not at the cursor 0, so the cursor does not
advance and the positional 2 binds to parameter `one` (pair keywords are
three, one, one), not to parameter `two`. -/
theorem C4_counterexample :
    ((builderNew ⟨0, 20⟩ (⟨0, 4⟩, "test") false argsScn4 [funcTest] envEmpty none).map
        (fun r => r.1.map (fun b => b.pairs.map (fun pr => pr.1.keyword))) =
      some (.ok ["three", "one", "one"])) ∧ ("one" ≠ "two") :=
  ⟨by decide, by decide⟩

/-- C4 (amended): the binder scans left-to-right with a positional cursor: a
positional argument binds the parameter at the cursor and advances it; a
keyword argument binds the parameter with that keyword (unknown keyword
yields UnknownKeyword) and advances the cursor only when that parameter's
position equals the cursor. Hence in test(three=3, 2, one=1) the cursor
stays at 0 after `three` (position 2), the positional 2 binds parameter
`one` and is overwritten by the keyword argument one=1, leaving parameter
`two` unbound. -/
theorem C4_cursor_semantics :
    (∀ (params : List Parameter) (i : Nat),
      resolveParam params i none = (params.get? i, i + 1)) ∧
    (∀ (params : List Parameter) (i : Nat) (k : String),
      params.enum.find? (fun ip => ip.2.keyword = k) = none →
      resolveParam params i (some k) = (none, i)) ∧
    (∀ (params : List Parameter) (i : Nat) (k : String) (pos : Nat) (p : Parameter),
      params.enum.find? (fun ip => ip.2.keyword = k) = some (pos, p) →
      resolveParam params i (some k) = (some p, if pos = i then i + 1 else i)) ∧
    (∀ (fid : String) (ab : Bool) (fmt : List String) (params : List Parameter)
        (isp : Span) (st : BindState) (node : NArg) (k : String) (ksp : Span),
      node.keyword = some k → node.keywordSpan = some ksp →
      params.enum.find? (fun ip => ip.2.keyword = k) = none →
      bindStep fid ab fmt params isp st node =
        some (.error (.UnknownKeyword ksp isp (params.map (fun p => p.keyword))))) ∧
    ((builderNew ⟨0, 20⟩ (⟨0, 4⟩, "test") false argsScn4 [funcTest] envEmpty none).map
        (fun r => r.1.map (fun b =>
          (b.pairs.map (fun pr => pr.1.keyword), b.list.get "two", b.list.get "one"))) =
      some (.ok (["three", "one", "one"], none, some (eInt 1)))) := by
  refine ⟨?_, ?_, ?_, ?_, by decide⟩
  · intro params i
    simp [resolveParam]
  · intro params i k hfind
    simp only [resolveParam]
    rw [hfind]
  · intro params i k pos p hfind
    simp only [resolveParam]
    rw [hfind]
  · intro fid ab fmt params isp st node k ksp hk hks hfind
    have h1 : (resolveParam params st.index node.keyword).1 = none := by
      rw [hk]
      simp only [resolveParam]
      rw [hfind]
    unfold bindStep
    simp only [] 
    rw [h1, hks]

/-- Witness for the amended C4: binding keyword `three` at cursor 0 does not
advance the cursor. -/
theorem C4_cursor_semantics_witness :
    (([pOne, pTwo, pThree].enum.find? (fun ip => ip.2.keyword = "three")) =
      some (2, pThree)) ∧
    resolveParam [pOne, pTwo, pThree] 0 (some "three") = (some pThree, 0) := by
  refine ⟨by decide, ?_⟩
  have h := C4_cursor_semantics.2.2.1 [pOne, pTwo, pThree] 0 "three" 2 pThree (by decide)
  simpa using h

/-- The last element of a cons is the last element of the tail when the tail
is non-empty. -/
theorem getLast?_cons_or (a : Kind) (l : List Kind) :
    (a :: l).getLast? = l.getLast?.or (some a) := by
  cases l with
  | nil => simp
  | cons b t =>
    rw [List.getLast?_cons_cons]
    cases h : (b :: t).getLast? with
    | none => exact absurd (List.getLast?_eq_none_iff.mp h) (by simp)
    | some x => simp

/-- When some input matches (first match in declaration order), selection
returns that input with its bound argument, for any accumulator. -/
theorem selectInput_match {cs : Span} {list : ArgList} :
    ∀ (inputs : List Input) (last : Option Kind) (inp : Input),
    specFirstMatch list inputs = some inp →
    ∃ e, list.get inp.parameter_keyword = some e ∧
      inp.kind.is_superset e.typeDef.kind = true ∧
      selectInput cs list inputs last = .ok (inp, e) := by
  intro inputs
  induction inputs with
  | nil => intro last inp h; simp [specFirstMatch] at h
  | cons i rest ih =>
    intro last inp h
    rcases hget : list.get i.parameter_keyword with _ | e
    · have h2 : specFirstMatch list rest = some inp := by
        simpa [specFirstMatch, List.find?_cons, hget] using h
      obtain ⟨e, h3, h4, h5⟩ := ih last inp h2
      exact ⟨e, h3, h4, by simpa [selectInput, hget] using h5⟩
    · by_cases hsup : i.kind.is_superset e.typeDef.kind
      · have hi : inp = i := by
          have := h
          simp [specFirstMatch, List.find?_cons, hget, hsup] at this
          exact this.symm
        subst hi
        exact ⟨e, hget, by simpa using hsup, by simp [selectInput, hget, hsup]⟩
      · have h2 : specFirstMatch list rest = some inp := by
          simpa [specFirstMatch, List.find?_cons, hget, hsup] using h
        obtain ⟨e2, h3, h4, h5⟩ := ih (some e.typeDef.kind) inp h2
        exact ⟨e2, h3, h4, by simpa [selectInput, hget, hsup] using h5⟩

/-- When no input matches, selection reports the last-seen mismatched kind,
falling back to the accumulator and then to any. -/
theorem selectInput_nomatch {cs : Span} {list : ArgList} :
    ∀ (inputs : List Input) (last : Option Kind),
    specFirstMatch list inputs = none →
    selectInput cs list inputs last = .error (.ClosureParameterTypeMismatch cs
      (((specMismatchKinds list inputs).getLast?.or last).getD Kind.any)) := by
  intro inputs
  induction inputs with
  | nil => intro last h; simp [selectInput, specMismatchKinds]
  | cons i rest ih =>
    intro last h
    rcases hget : list.get i.parameter_keyword with _ | e
    · have h2 : specFirstMatch list rest = none := by
        simpa [specFirstMatch, List.find?_cons, hget] using h
      have hmk : specMismatchKinds list (i :: rest) = specMismatchKinds list rest := by
        simp [specMismatchKinds, hget]
      rw [hmk]
      simpa [selectInput, hget] using ih last h2
    · by_cases hsup : i.kind.is_superset e.typeDef.kind
      · exfalso
        simp [specFirstMatch, List.find?_cons, hget, hsup] at h
      · have h2 : specFirstMatch list rest = none := by
          simpa [specFirstMatch, List.find?_cons, hget, hsup] using h
        have hmk : specMismatchKinds list (i :: rest) =
            e.typeDef.kind :: specMismatchKinds list rest := by
          simp [specMismatchKinds, hget, hsup]
        rw [hmk, getLast?_cons_or]
        have hrec := ih (some e.typeDef.kind) h2
        have hor : ((specMismatchKinds list rest).getLast?.or (some e.typeDef.kind)).getD Kind.any =
            (((specMismatchKinds list rest).getLast?.or (some e.typeDef.kind)).or last).getD Kind.any := by
          cases hx : (specMismatchKinds list rest).getLast? <;> simp
        rw [← hor]
        simpa [selectInput, hget, hsup] using hrec

/-- C6: closure input selection walks cdef.inputs in declaration order,
skipping unbound inputs, skipping kind mismatches while remembering the
last-seen mismatched kind, and stopping at the first input that passes both
tests; with no match it returns ClosureParameterTypeMismatch carrying the
last-seen mismatched kind, or Kind.any when none was recorded. -/
theorem C6_closure_input_selection :
    (∀ (cs : Span) (list : ArgList) (inputs : List Input) (inp : Input),
      specFirstMatch list inputs = some inp →
      ∃ e, list.get inp.parameter_keyword = some e ∧
        inp.kind.is_superset e.typeDef.kind = true ∧
        selectInput cs list inputs none = .ok (inp, e)) ∧
    (∀ (cs : Span) (list : ArgList) (inputs : List Input),
      specFirstMatch list inputs = none →
      selectInput cs list inputs none = .error (.ClosureParameterTypeMismatch cs
        ((specMismatchKinds list inputs).getLast?.getD Kind.any))) := by
  constructor
  · intro cs list inputs inp h
    exact selectInput_match inputs none inp h
  · intro cs list inputs h
    have := @selectInput_nomatch cs list inputs none h
    simpa using this

/-- Witness for C6: a matching scenario and a no-match scenario whose
reported kind is the last-seen mismatch. -/
theorem C6_closure_input_selection_witness :
    (specFirstMatch listW [inpMiss, inpVal] = some inpVal) ∧
    (selectInput ⟨0, 9⟩ listW [inpMiss, inpVal] none = .ok (inpVal, eIB)) ∧
    (specFirstMatch listW [inpMiss, inpInt] = none) ∧
    (selectInput ⟨0, 9⟩ listW [inpMiss, inpInt] none =
      .error (.ClosureParameterTypeMismatch ⟨0, 9⟩ ⟨[.integer, .bytes]⟩)) := by
  refine ⟨by decide, ?_, by decide, ?_⟩
  · obtain ⟨e, he, -, hsel⟩ := C6_closure_input_selection.1 ⟨0, 9⟩ listW [inpMiss, inpVal]
      inpVal (by decide)
    have he2 : e = eIB := by
      have : listW.get inpVal.parameter_keyword = some eIB := by decide
      rw [this] at he
      exact (Option.some.inj he).symm
    rw [he2] at hsel
    exact hsel
  · have h := C6_closure_input_selection.2 ⟨0, 9⟩ listW [inpMiss, inpInt] (by decide)
    have h2 : (specMismatchKinds listW [inpMiss, inpInt]).getLast?.getD Kind.any =
        ⟨[.integer, .bytes]⟩ := by decide
    rw [h2] at h
    exact h

/-- The score minimiser returns none only on the empty list. -/
theorem minByScore_eq_none : ∀ l : List (String × Nat), minByScore l = none → l = [] := by
  intro l h
  cases l with
  | nil => rfl
  | cons x xs =>
    exfalso
    unfold minByScore at h
    cases h2 : minByScore xs <;> rw [h2] at h <;> simp at h
    split at h <;> simp at h

/-- The score minimiser returns an element of the list whose score is
minimal. -/
theorem minByScore_spec : ∀ (l : List (String × Nat)) (x : String × Nat),
    minByScore l = some x → x ∈ l ∧ ∀ p ∈ l, x.2 ≤ p.2 := by
  intro l
  induction l with
  | nil => intro x h; simp [minByScore] at h
  | cons a t ih =>
    intro x h
    unfold minByScore at h
    cases h2 : minByScore t with
    | none =>
      rw [h2] at h
      simp at h
      subst h
      have ht : t = [] := minByScore_eq_none t h2
      subst ht
      simp
    | some y =>
      rw [h2] at h
      obtain ⟨hmem, hmin⟩ := ih y h2
      by_cases hlt : y.2 < a.2
      · simp [hlt] at h
        subst h
        refine ⟨List.mem_cons_of_mem _ hmem, ?_⟩
        intro p hp
        rcases List.mem_cons.mp hp with hp | hp
        · subst hp; exact Nat.le_of_lt hlt
        · exact hmin p hp
      · simp [hlt] at h
        subst h
        refine ⟨List.mem_cons_self _ _, ?_⟩
        intro p hp
        rcases List.mem_cons.mp hp with hp | hp
        · subst hp; exact Nat.le_refl _
        · exact Nat.le_trans (Nat.le_of_not_lt hlt) (hmin p hp)

/-- C9: for every Undefined error with a non-empty registry identifier list,
the suggestion names an identifier minimising the character-vector
Levenshtein distance to the misspelled identifier, with no threshold. -/
theorem C9_undefined_suggestion (ident : String) (idents : List String)
    (h : idents ≠ []) :
    ∃ s, undefinedSuggestion ident idents = some s ∧ s ∈ idents ∧
      ∀ t ∈ idents, levDistance ident.data s.data ≤ levDistance ident.data t.data := by
  have hdef : undefinedSuggestion ident idents =
      (minByScore (idents.map
        (fun possible => (possible, levDistance ident.data possible.data)))).map
        (fun x => x.1) := rfl
  cases hm : minByScore (idents.map
      (fun possible => (possible, levDistance ident.data possible.data))) with
  | none =>
    exfalso
    have := minByScore_eq_none _ hm
    simp at this
    exact h this
  | some x =>
    obtain ⟨hmem, hmin⟩ := minByScore_spec _ x hm
    obtain ⟨poss, hposs, hx⟩ := List.mem_map.mp hmem
    refine ⟨x.1, by rw [hdef, hm]; rfl, ?_, ?_⟩
    · rw [← hx]
      exact hposs
    · intro t ht
      have hmemt : (t, levDistance ident.data t.data) ∈ idents.map
          (fun possible => (possible, levDistance ident.data possible.data)) :=
        List.mem_map_of_mem _ ht
      have h2 := hmin _ hmemt
      have hx1 : x.1 = poss := by rw [← hx]
      have hx2 : x.2 = levDistance ident.data poss.data := by rw [← hx]
      rw [hx1, ← hx2]
      exact h2

/-- Witness for C9: the misspelled `test` against the registry containing
only `teest` suggests `teest`. -/
theorem C9_undefined_suggestion_witness :
    ((["teest"] : List String) ≠ []) ∧
    undefinedSuggestion "test" ["teest"] = some "teest" := by
  refine ⟨by simp, ?_⟩
  obtain ⟨s, hs, hmem, -⟩ := C9_undefined_suggestion "test" ["teest"] (by simp)
  have hse : s = "teest" := by simpa using hmem
  rw [hse] at hs
  exact hs

/-- The keyword-placement pass never returns the `Too many parameters`
error. -/
theorem placeNamed_ne_tooMany {params : List Parameter} :
    ∀ (args : List NArg) (result : List (String × Option NArg)) (unnamed : List NArg),
    placeNamed params args result unnamed ≠ some (.error .tooMany) := by
  intro args
  induction args with
  | nil => intro result unnamed h; simp [placeNamed] at h
  | cons a rest ih =>
    intro result unnamed h
    unfold placeNamed at h
    split at h
    · exact ih _ _ h
    · split at h
      · simp at h
      · split at h
        · simp at h
        · exact ih _ _ h

/-- A successful slot search returns a position at or after the cursor and
within the scanned suffix. -/
theorem findSlotAux_some_bound :
    ∀ (l : List (String × Option NArg)) (pos p : Nat),
    findSlotAux l pos = some p → pos ≤ p ∧ p - pos < l.length := by
  intro l
  induction l with
  | nil => intro pos p h; simp [findSlotAux] at h
  | cons x xs ih =>
    intro pos p h
    unfold findSlotAux at h
    split at h
    · have := ih (pos + 1) p h
      simp only [List.length_cons]
      omega
    · simp at h
      simp only [List.length_cons]
      omega

/-- The positional-fill loop never returns the `Too many parameters` error:
the slot search panics (indexes past the end) before the guard could
trigger. -/
theorem fillUnnamed_ne_tooMany :
    ∀ (unnamed : List NArg) (result : List (String × Option NArg)) (pos : Nat),
    fillUnnamed unnamed result pos ≠ some (.error .tooMany) := by
  intro unnamed
  induction unnamed with
  | nil => intro result pos h; simp [fillUnnamed] at h
  | cons a rest ih =>
    intro result pos h
    unfold fillUnnamed at h
    split at h
    · simp at h
    · rename_i p hfs
      have hb := findSlotAux_some_bound _ _ _ hfs
      have hlen : ¬ (result.length < p) := by
        by_cases hpl : result.length < pos
        · exfalso
          have : result.drop pos = [] := by
            rw [List.drop_eq_nil_iff]
            omega
          rw [this] at hfs
          simp [findSlotAux] at hfs
        · have := List.length_drop pos result
          omega
      rw [if_neg hlen] at h
      split at h
      · simp at h
      · exact ih _ _ h

/-- With at least one empty slot in the scanned suffix, the slot search
succeeds, returning the first empty slot. -/
theorem findSlotAux_success :
    ∀ (l : List (String × Option NArg)) (pos : Nat),
    0 < countNone l →
    ∃ j entry, findSlotAux l pos = some (pos + j) ∧ l.get? j = some entry ∧
      entry.2 = none ∧ countNone (l.drop (j + 1)) = countNone l - 1 := by
  intro l
  induction l with
  | nil => intro pos h; simp [countNone] at h
  | cons x xs ih =>
    intro pos h
    rcases hx : x.2 with _ | v
    · refine ⟨0, x, ?_, rfl, hx, ?_⟩
      · simp [findSlotAux, hx]
      · simp [countNone, List.countP_cons, hx]
    · have hcount : countNone (x :: xs) = countNone xs := by
        simp [countNone, List.countP_cons, hx]
      rw [hcount] at h
      obtain ⟨j, entry, hf, hg, hn, hc⟩ := ih (pos + 1) h
      refine ⟨j + 1, entry, ?_, ?_, hn, ?_⟩
      · have hstep : findSlotAux (x :: xs) pos = findSlotAux xs (pos + 1) := by
          simp [findSlotAux, hx]
        rw [hstep, hf]
        congr 1
        omega
      · simpa using hg
      · rw [List.drop_succ_cons, hc, hcount]

/-- Setting the slot at the cursor and dropping up to it exposes the new
element followed by the untouched tail. -/
theorem set_drop_cons :
    ∀ (l : List (String × Option NArg)) (p : Nat) (v entry : String × Option NArg),
    l.get? p = some entry → (l.set p v).drop p = v :: l.drop (p + 1) := by
  intro l
  induction l with
  | nil => intro p v entry h; simp at h
  | cons x xs ih =>
    intro p v entry h
    cases p with
    | zero => simp
    | succ q =>
      simp only [List.get?_cons_succ] at h
      simp only [List.set_cons_succ, List.drop_succ_cons]
      exact ih q v entry h

/-- Setting one slot reduces the number of empty slots by at most one. -/
theorem countNone_set_ge :
    ∀ (l : List (String × Option NArg)) (i : Nat) (v : String × Option NArg),
    countNone l ≤ countNone (l.set i v) + 1 := by
  intro l
  induction l with
  | nil => intro i v; simp
  | cons x xs ih =>
    intro i v
    cases i with
    | zero =>
      simp only [List.set_cons_zero, countNone, List.countP_cons]
      have := ih 0 v
      rcases hx : x.2 <;> rcases hv : v.2 <;> simp [hx, hv] <;> omega
    | succ q =>
      simp only [List.set_cons_succ, countNone, List.countP_cons]
      have := ih q v
      simp only [countNone] at this
      omega

/-- The positional-fill loop succeeds whenever the positional arguments fit
into the empty slots of the scanned suffix. -/
theorem fillUnnamed_total :
    ∀ (unnamed : List NArg) (result : List (String × Option NArg)) (pos : Nat),
    unnamed.length ≤ countNone (result.drop pos) →
    ∃ r, fillUnnamed unnamed result pos = some (.ok r) ∧ r.length = result.length := by
  intro unnamed
  induction unnamed with
  | nil => intro result pos h; exact ⟨result, rfl, rfl⟩
  | cons a rest ih =>
    intro result pos h
    have hpos : 0 < countNone (result.drop pos) := by
      simp only [List.length_cons] at h
      omega
    obtain ⟨j, entry, hf, hg, hn, hc⟩ := findSlotAux_success (result.drop pos) pos hpos
    have hget : result.get? (pos + j) = some entry := by
      rw [List.get?_eq_getElem?] at hg ⊢
      rw [← List.getElem?_drop]
      exact hg
    have hlt : pos + j < result.length := by
      rw [List.get?_eq_getElem?] at hget
      exact (List.getElem?_eq_some.mp hget).1
    have hni : ¬ result.length < pos + j := by omega
    have hget2 : result[pos + j]? = some entry := by
      rw [← List.get?_eq_getElem?]
      exact hget
    have hstep : fillUnnamed (a :: rest) result pos =
        fillUnnamed rest (result.set (pos + j) (entry.1, some a)) (pos + j) := by
      rw [fillUnnamed, hf]
      simp [hni, hget2]
    rw [hstep]
    have hinv : rest.length ≤
        countNone ((result.set (pos + j) (entry.1, some a)).drop (pos + j)) := by
      rw [set_drop_cons result (pos + j) (entry.1, some a) entry hget]
      have hdd : result.drop (pos + j + 1) = (result.drop pos).drop (j + 1) := by
        rw [List.drop_drop, Nat.add_assoc]
      have hcc : countNone ((entry.1, some a) :: result.drop (pos + j + 1)) =
          countNone (result.drop (pos + j + 1)) := by
        simp [countNone, List.countP_cons]
      rw [hcc, hdd, hc]
      simp only [List.length_cons] at h
      omega
    obtain ⟨r, hr, hrlen⟩ := ih _ _ hinv
    refine ⟨r, hr, ?_⟩
    rw [hrlen]
    exact List.length_set result _ _

/-- The keyword-placement pass succeeds when every keyword is known and the
argument count is within the empty-slot budget, preserving that budget. -/
theorem placeNamed_total {params : List Parameter} :
    ∀ (args : List NArg) (result : List (String × Option NArg)) (unnamed : List NArg),
    result.length = params.length →
    (∀ a ∈ args, ∀ k, a.keyword = some k →
      (params.enum.find? (fun ip => ip.2.keyword = k)).isSome = true) →
    unnamed.length + args.length ≤ countNone result →
    ∃ result2 unnamed2,
      placeNamed params args result unnamed = some (.ok (result2, unnamed2)) ∧
      result2.length = result.length ∧ unnamed2.length ≤ countNone result2 := by
  intro args
  induction args with
  | nil =>
    intro result unnamed hlen hkw hcnt
    exact ⟨result, unnamed, rfl, rfl, by simpa using hcnt⟩
  | cons a rest ih =>
    intro result unnamed hlen hkw hcnt
    rcases hk : a.keyword with _ | k
    · have hstep : placeNamed params (a :: rest) result unnamed =
          placeNamed params rest result (unnamed ++ [a]) := by
        rw [placeNamed, hk]
      rw [hstep]
      have hkw2 : ∀ b ∈ rest, ∀ k, b.keyword = some k →
          (params.enum.find? (fun ip => ip.2.keyword = k)).isSome = true :=
        fun b hb => hkw b (List.mem_cons_of_mem _ hb)
      have hcnt2 : (unnamed ++ [a]).length + rest.length ≤ countNone result := by
        simp only [List.length_append, List.length_cons, List.length_nil] at hcnt ⊢
        omega
      obtain ⟨r2, u2, hp, hl, hu⟩ := ih result (unnamed ++ [a]) hlen hkw2 hcnt2
      exact ⟨r2, u2, hp, hl, hu⟩
    · have hks := hkw a (List.mem_cons_self _ _) k hk
      obtain ⟨⟨pos, q⟩, hfind⟩ := Option.isSome_iff_exists.mp hks
      have hmem := List.mem_of_find?_eq_some hfind
      have hpq : params[pos]? = some q := List.mem_enum_iff_getElem?.mp hmem
      have hpos : pos < params.length := (List.getElem?_eq_some.mp hpq).1
      have hposr : pos < result.length := by omega
      have hget : ∃ entry, result.get? pos = some entry := by
        rw [List.get?_eq_getElem?]
        exact ⟨result[pos], List.getElem?_eq_some.mpr ⟨hposr, rfl⟩⟩
      obtain ⟨entry, hget⟩ := hget
      have hgetE : result[pos]? = some entry := by
        rw [← List.get?_eq_getElem?]
        exact hget
      have hstep : placeNamed params (a :: rest) result unnamed =
          placeNamed params rest (result.set pos (entry.1, some a)) unnamed := by
        rw [placeNamed, hk]
        simp [hfind, hget, hgetE]
      rw [hstep]
      have hkw2 : ∀ b ∈ rest, ∀ k, b.keyword = some k →
          (params.enum.find? (fun ip => ip.2.keyword = k)).isSome = true :=
        fun b hb => hkw b (List.mem_cons_of_mem _ hb)
      have hlen2 : (result.set pos (entry.1, some a)).length = params.length := by
        rw [List.length_set]; exact hlen
      have hcnt2 : unnamed.length + rest.length ≤
          countNone (result.set pos (entry.1, some a)) := by
        have := countNone_set_ge result pos (entry.1, some a)
        simp only [List.length_cons] at hcnt
        omega
      obtain ⟨r2, u2, hp, hl, hu⟩ := ih _ unnamed hlen2 hkw2 hcnt2
      refine ⟨r2, u2, hp, ?_, hu⟩
      rw [hl, List.length_set]

/-- C10: resolve_arguments is not total over arbitrary stored argument lists:
with more positional arguments than empty slots the slot search indexes past
the end of the result vector, a panic (first conjunct, at a concrete input);
the `Too many parameters` branch is never returned (second conjunct); and the
function is a total Ok-producing map, of the parameter list's length, under
the binder-acceptance precondition (arity within bounds and every keyword
known) (third conjunct). -/
theorem C10_resolve_arguments :
    (resolve_arguments [aPos 1, aPos 2] [pOne] = none) ∧
    (∀ (args : List NArg) (params : List Parameter),
      resolve_arguments args params ≠ some (.error .tooMany)) ∧
    (∀ (args : List NArg) (params : List Parameter),
      args.length ≤ params.length →
      (∀ a ∈ args, ∀ k, a.keyword = some k →
        (params.enum.find? (fun ip => ip.2.keyword = k)).isSome = true) →
      ∃ r, resolve_arguments args params = some (.ok r) ∧
        r.length = params.length) := by
  refine ⟨by decide, ?_, ?_⟩
  · intro args params h
    unfold resolve_arguments at h
    simp only [] at h
    rcases hp : placeNamed params args (params.map (fun p => (p.keyword, none))) [] with _ | er
    · rw [hp] at h
      simp at h
    · rcases er with e | ⟨r2, un⟩
      · rw [hp] at h
        simp at h
        rw [h] at hp
        exact placeNamed_ne_tooMany args _ _ hp
      · rw [hp] at h
        simp only [] at h
        exact fillUnnamed_ne_tooMany un r2 0 h
  · intro args params hlen hkw
    have hcn : countNone (params.map (fun p => (p.keyword, none))) = params.length := by
      unfold countNone
      rw [List.countP_map]
      exact List.countP_eq_length.mpr (by intro a ha; simp [Function.comp])
    have hrl : (params.map (fun p => (p.keyword, (none : Option NArg)))).length =
        params.length := List.length_map _ _
    obtain ⟨r2, u2, hp, hl, hu⟩ := placeNamed_total args
      (params.map (fun p => (p.keyword, none))) [] hrl hkw
      (by rw [hcn]; simp only [List.length_nil, Nat.zero_add]; exact hlen)
    obtain ⟨r, hr, hrlen⟩ := fillUnnamed_total u2 r2 0 (by simpa using hu)
    refine ⟨r, ?_, by rw [hrlen, hl, hrl]⟩
    unfold resolve_arguments
    simp only []
    rw [hp]
    simp only []
    exact hr

/-- Witness for C10: a one-positional-argument call satisfies the
binder-acceptance precondition and resolves to a dense vector. -/
theorem C10_resolve_arguments_witness :
    (([aPos 1] : List NArg).length ≤ ([pOne] : List Parameter).length) ∧
    (Option.isSome (resolve_arguments [aPos 1] [pOne]) = true) ∧
    (resolve_arguments [aPos 1] [pOne] ≠ some (.error .tooMany)) := by
  refine ⟨by decide, ?_, C10_resolve_arguments.2.1 [aPos 1] [pOne]⟩
  obtain ⟨r, hr, -⟩ := C10_resolve_arguments.2.2 [aPos 1] [pOne] (by decide)
    (by
      intro a ha k hk
      rw [List.mem_singleton] at ha
      subst ha
      simp [aPos] at hk)
  rw [hr]
  rfl
